import Mathlib

/-!
Shallow embedding of `src/misc/data_anonymiser.py`: a recursive anonymiser
for JSON-like values.  Strings are classified (email / phone / url / text)
with regex prefix-matching, pseudonym tokens are issued from per-category
registries, certain keys force anonymisation of their whole subtree, and the
two fields `data_files` / `data_resources` are truncated to one element.
-/

namespace DataAnonymiser

/-- JSON-like values.  `other` stands for any non-JSON leaf, which the
Python code passes through unchanged (final `else: return obj`). -/
inductive Json where
  | obj (fields : List (String × Json))
  | arr (elems : List Json)
  | str (s : String)
  | num (n : Int)
  | bool (b : Bool)
  | null
  | other (tag : Nat)

/-- Python `\s` (modelled on its ASCII fragment). -/
def isSpaceChar (c : Char) : Bool :=
  c = ' ' || c = '\t' || c = '\n' || c = '\x0b' || c = '\x0c' || c = '\r'

/-- The character class `[\d\s\-()]` of `PHONE_REGEX`. -/
def phoneClassChar (c : Char) : Bool :=
  c.isDigit || isSpaceChar c || c = '-' || c = '(' || c = ')'

/-- `EMAIL_REGEX = [^@]+@[^@]+\.[^@]+` used with `re.match` (prefix match,
unanchored at the end).  A match exists iff the string decomposes as
`A ++ "@" ++ B ++ "." ++ C ++ rest` with `A`, `B` nonempty and free of `@`,
and at least one non-`@` character right after the dot. -/
def emailMatch (s : String) : Bool :=
  let cs := s.data
  (List.range cs.length).any fun i =>
    (List.range cs.length).any fun j =>
      decide (1 ≤ i) && decide (i + 2 ≤ j) && decide (j + 1 < cs.length) &&
      (cs.getD i ' ' == '@') && (cs.getD j ' ' == '.') &&
      ((cs.take i).all fun c => c != '@') &&
      (((cs.drop (i + 1)).take (j - (i + 1))).all fun c => c != '@') &&
      (cs.getD (j + 1) ' ' != '@')

/-- The `\d[\d\s\-()]{6,}\d` core of `PHONE_REGEX` as a prefix match:
a digit, then at least six class characters, then a digit. -/
def phoneCore (cs : List Char) : Bool :=
  match cs with
  | [] => false
  | c :: rest =>
    c.isDigit &&
    ((List.range (rest.length + 1)).any fun m =>
      decide (6 ≤ m) && decide (m < rest.length) &&
      ((rest.take m).all phoneClassChar) && (rest.getD m ' ').isDigit)

/-- `PHONE_REGEX = \+?\d[\d\s\-()]{6,}\d` used with `re.match`:
the leading `+` is optional. -/
def phoneMatch (s : String) : Bool :=
  phoneCore s.data ||
    (match s.data with
     | '+' :: rest => phoneCore rest
     | _ => false)

/-- Python `s.startswith("http")`. -/
def startsWithHttp (s : String) : Bool :=
  match s.data with
  | 'h' :: 't' :: 't' :: 'p' :: _ => true
  | _ => false

/-- Python `k.lower()` (its ASCII behaviour), written as a character map so
that it evaluates in the kernel. -/
def strLower (s : String) : String := ⟨s.data.map Char.toLower⟩

/-- Per-category pseudonym registries (the module-level dicts
`url_map, email_map, phone_map, text_map`), modelled as insertion-ordered
association lists. -/
structure Registry where
  email_map : List (String × String)
  phone_map : List (String × String)
  url_map : List (String × String)
  text_map : List (String × String)
deriving DecidableEq

def Registry.empty : Registry := ⟨[], [], [], []⟩

/-- `anonymise_value(value, mapping, prefix)`: memoised token lookup; a new
token is `prefix` followed by `len(mapping) + 1` in decimal. -/
def anonymise_value (value : String) (mapping : List (String × String))
    (pfx : String) : String × List (String × String) :=
  match List.lookup value mapping with
  | some t => (t, mapping)
  | none =>
    let t := pfx ++ Nat.repr (mapping.length + 1)
    (t, mapping ++ [(value, t)])

/-- `anonymise_string(s)`: classify by the fixed priority order
email, phone, url, text and fetch the token from that category's map. -/
def anonymise_string (s : String) (st : Registry) : String × Registry :=
  if emailMatch s then
    let (t, m) := anonymise_value s st.email_map "email"
    (t, { st with email_map := m })
  else if phoneMatch s then
    let (t, m) := anonymise_value s st.phone_map "phone"
    (t, { st with phone_map := m })
  else if startsWithHttp s then
    let (t, m) := anonymise_value s st.url_map "url"
    (t, { st with url_map := m })
  else
    let (t, m) := anonymise_value s st.text_map "text"
    (t, { st with text_map := m })

def ANON_BLOCKS : List String :=
  ["data_providers", "contacts", "citations", "authors", "unique_datasets",
   "dataset_identifiers", "datasets", "data_files", "data_resources",
   "data_collections", "data_licences", "data_tags"]

def PIPELINE_FIELDS : List String := ["script", "endpoints"]

def SKIP_KEYS : List String := ["location", "id", "uuid"]

/-- `if isinstance(v, list): v = v[:1]` — keep only the first element of a
list value, leave any other value alone. -/
def truncIfList : Json → Json
  | .arr xs => .arr (xs.take 1)
  | v => v

theorem one_le_sizeOf_list {α : Type} [SizeOf α] (l : List α) : 1 ≤ sizeOf l := by
  cases l <;> simp_arith

theorem sizeOf_truncIfList_le (v : Json) : sizeOf (truncIfList v) ≤ sizeOf v := by
  cases v with
  | arr xs =>
    cases xs with
    | nil => simp [truncIfList]
    | cons x r =>
      have h := one_le_sizeOf_list r
      simp only [truncIfList, List.take]
      simp_arith
      omega
  | _ => simp [truncIfList]

/-- `if k == "data_files" and isinstance(v, list): v = v[:1]`. -/
def truncDF (k : String) (v : Json) : Json :=
  if k = "data_files" then truncIfList v else v

/-- `if k == "data_resources" and isinstance(v, list): v = v[:1]`. -/
def truncDR (k : String) (v : Json) : Json :=
  if k = "data_resources" then truncIfList v else v

/-- The two sequential reassignments of `v` in the loop body. -/
def truncKey (k : String) (v : Json) : Json :=
  truncDR k (truncDF k v)

theorem sizeOf_truncDF_le (k : String) (v : Json) :
    sizeOf (truncDF k v) ≤ sizeOf v := by
  unfold truncDF; split
  · exact sizeOf_truncIfList_le v
  · exact le_refl _

theorem sizeOf_truncDR_le (k : String) (v : Json) :
    sizeOf (truncDR k v) ≤ sizeOf v := by
  unfold truncDR; split
  · exact sizeOf_truncIfList_le v
  · exact le_refl _

theorem sizeOf_truncKey_le (k : String) (v : Json) :
    sizeOf (truncKey k v) ≤ sizeOf v :=
  le_trans (sizeOf_truncDR_le k (truncDF k v)) (sizeOf_truncDF_le k v)

mutual

/-- `anonymise(obj, parent_key, force)` threading the registry state. -/
def anonymise (j : Json) (parent_key : Option String) (force : Bool)
    (st : Registry) : Json × Registry :=
  match j with
  | .obj fields =>
    (Json.obj (anonymiseFields fields force st).1,
     (anonymiseFields fields force st).2)
  | .arr xs =>
    (Json.arr (anonymiseElems xs parent_key force st).1,
     (anonymiseElems xs parent_key force st).2)
  | .str s =>
    if force then
      (Json.str (anonymise_string s st).1, (anonymise_string s st).2)
    else (.str s, st)
  | v => (v, st)
termination_by sizeOf j
decreasing_by
  all_goals simp_wf

/-- The body of the `for k, v in obj.items()` loop, computing
`new_obj[k]` from the (already truncated) value `v2`. -/
def anonymiseEntry (k : String) (v2 : Json) (force : Bool)
    (st : Registry) : Json × Registry :=
  if force || PIPELINE_FIELDS.contains (strLower k) then
    match v2 with
    | .str s => (Json.str (anonymise_string s st).1, (anonymise_string s st).2)
    | w => anonymise w (some k) true st
  else if ANON_BLOCKS.contains (strLower k) then
    anonymise v2 (some k) true st
  else if SKIP_KEYS.contains (strLower k) then
    (v2, st)
  else
    anonymise v2 (some k) false st
termination_by sizeOf v2 + 1
decreasing_by
  all_goals simp_wf

/-- The `for k, v in obj.items()` loop building `new_obj`. -/
def anonymiseFields (fields : List (String × Json)) (force : Bool)
    (st : Registry) : List (String × Json) × Registry :=
  match fields with
  | [] => ([], st)
  | (k, v) :: rest =>
    ((k, (anonymiseEntry k (truncKey k v) force st).1) ::
       (anonymiseFields rest force (anonymiseEntry k (truncKey k v) force st).2).1,
     (anonymiseFields rest force (anonymiseEntry k (truncKey k v) force st).2).2)
termination_by sizeOf fields
decreasing_by
  all_goals simp_wf
  all_goals have h := sizeOf_truncKey_le k v
  all_goals have h2 := one_le_sizeOf_list rest
  all_goals simp_arith
  all_goals omega

/-- The list comprehension `[anonymise(x, parent_key, force) for x in obj]`. -/
def anonymiseElems (xs : List Json) (parent_key : Option String)
    (force : Bool) (st : Registry) : List Json × Registry :=
  match xs with
  | [] => ([], st)
  | x :: rest =>
    ((anonymise x parent_key force st).1 ::
       (anonymiseElems rest parent_key force (anonymise x parent_key force st).2).1,
     (anonymiseElems rest parent_key force (anonymise x parent_key force st).2).2)
termination_by sizeOf xs
decreasing_by
  all_goals simp_wf
  all_goals simp_arith

end

/-- `anonymise(data)` at the top of a run: default arguments
`parent_key=None, force=False`, registries fresh. -/
def runAnonymise (doc : Json) : Json × Registry :=
  anonymise doc none false Registry.empty

/-! Decimal string representations of distinct naturals are distinct:
`Nat.repr` is injective.  Needed because tokens embed a decimal counter. -/

/-- Read a decimal digit list back into a number (`'0'` has code 48). -/
def chVal (acc : Nat) (c : Char) : Nat := 10 * acc + (c.toNat - 48)

def listVal (l : List Char) : Nat := l.foldl chVal 0

theorem digitChar_val : ∀ n < 10, (Nat.digitChar n).toNat - 48 = n := by decide

theorem toDigitsCore_spec :
    ∀ (f n : Nat), n < f → ∀ (acc : List Char),
      ∃ ds, Nat.toDigitsCore 10 f n acc = ds ++ acc ∧ listVal ds = n := by
  intro f
  induction f with
  | zero => intro n hn; omega
  | succ f ih =>
    intro n hn acc
    by_cases h0 : n / 10 = 0
    · refine ⟨[Nat.digitChar (n % 10)], ?_, ?_⟩
      · simp [Nat.toDigitsCore, h0]
      · have hn10 : n < 10 := by omega
        have hmod : n % 10 = n := Nat.mod_eq_of_lt hn10
        simp [listVal, List.foldl, chVal, hmod]
        exact digitChar_val n hn10
    · have hge : 10 ≤ n := by
        by_contra hl
        exact h0 (Nat.div_eq_of_lt (by omega))
      have hlt : n / 10 < f := by
        have := Nat.div_lt_self (by omega : 0 < n) (by omega : 1 < 10)
        omega
      obtain ⟨ds, hds, hval⟩ := ih (n / 10) hlt (Nat.digitChar (n % 10) :: acc)
      refine ⟨ds ++ [Nat.digitChar (n % 10)], ?_, ?_⟩
      · simp [Nat.toDigitsCore, h0, hds]
      · have hm : n % 10 < 10 := Nat.mod_lt _ (by omega)
        simp [listVal, List.foldl_append] at hval ⊢
        simp [hval, chVal, digitChar_val _ hm]
        omega

theorem listVal_toDigits (n : Nat) : listVal (Nat.toDigits 10 n) = n := by
  obtain ⟨ds, hds, hval⟩ := toDigitsCore_spec (n + 1) n (by omega) []
  simp [Nat.toDigits, hds, hval]

theorem natRepr_inj {m n : Nat} (h : Nat.repr m = Nat.repr n) : m = n := by
  have hdata : Nat.toDigits 10 m = Nat.toDigits 10 n :=
    congrArg String.data h
  calc m = listVal (Nat.toDigits 10 m) := (listVal_toDigits m).symm
    _ = listVal (Nat.toDigits 10 n) := by rw [hdata]
    _ = n := listVal_toDigits n

theorem string_append_left_cancel {p x y : String} (h : p ++ x = p ++ y) :
    x = y := by
  have hd := congrArg String.data h
  simp only [String.data_append] at hd
  exact String.ext (List.append_cancel_left hd)

/-! ### Registry well-formedness

In a reachable registry, the `i`-th entry of a category's map carries the
token `pfx ++ repr (i+1)`: tokens record their insertion position. -/

def WFmap (pfx : String) (m : List (String × String)) : Prop :=
  ∀ i (h : i < m.length), (m.get ⟨i, h⟩).2 = pfx ++ Nat.repr (i + 1)

def WF (st : Registry) : Prop :=
  WFmap "email" st.email_map ∧ WFmap "phone" st.phone_map ∧
  WFmap "url" st.url_map ∧ WFmap "text" st.text_map

theorem WF_empty : WF Registry.empty := by
  refine ⟨?_, ?_, ?_, ?_⟩ <;> (intro i h; simp [Registry.empty] at h)

/-- The four string-classification categories of `anonymise_string`. -/
inductive Cat where
  | email
  | phone
  | url
  | text
deriving DecidableEq

/-- The branch order of `anonymise_string`: email, phone, url, text;
first match wins. -/
def classify (s : String) : Cat :=
  if emailMatch s then .email
  else if phoneMatch s then .phone
  else if startsWithHttp s then .url
  else .text

def catPfx : Cat → String
  | .email => "email"
  | .phone => "phone"
  | .url => "url"
  | .text => "text"

def catMap : Cat → Registry → List (String × String)
  | .email, st => st.email_map
  | .phone, st => st.phone_map
  | .url, st => st.url_map
  | .text, st => st.text_map

def setCatMap : Cat → Registry → List (String × String) → Registry
  | .email, st, m => { st with email_map := m }
  | .phone, st, m => { st with phone_map := m }
  | .url, st, m => { st with url_map := m }
  | .text, st, m => { st with text_map := m }

theorem anonymise_string_eq (s : String) (st : Registry) :
    anonymise_string s st =
      ((anonymise_value s (catMap (classify s) st) (catPfx (classify s))).1,
       setCatMap (classify s) st
         (anonymise_value s (catMap (classify s) st) (catPfx (classify s))).2) := by
  by_cases h1 : emailMatch s
  · simp only [anonymise_string, classify, h1, if_true]
    cases hv : anonymise_value s st.email_map "email" with
    | mk t m => simp [catMap, catPfx, setCatMap, hv]
  · by_cases h2 : phoneMatch s
    · simp only [anonymise_string, classify, h1, h2, if_true, if_false]
      cases hv : anonymise_value s st.phone_map "phone" with
      | mk t m => simp [catMap, catPfx, setCatMap, hv]
    · by_cases h3 : startsWithHttp s
      · simp only [anonymise_string, classify, h1, h2, h3, if_true, if_false]
        cases hv : anonymise_value s st.url_map "url" with
        | mk t m => simp [catMap, catPfx, setCatMap, hv]
      · simp only [anonymise_string, classify, h1, h2, h3, if_false]
        cases hv : anonymise_value s st.text_map "text" with
        | mk t m => simp [catMap, catPfx, setCatMap, hv]

theorem catMap_setCatMap_self (c : Cat) (st : Registry) (m : List (String × String)) :
    catMap c (setCatMap c st m) = m := by
  cases c <;> rfl

theorem catMap_setCatMap_ne (c c' : Cat) (st : Registry)
    (m : List (String × String)) (h : c' ≠ c) :
    catMap c' (setCatMap c st m) = catMap c' st := by
  cases c <;> cases c' <;> first | rfl | exact absurd rfl h

/-! ### `anonymise_value` lemmas -/

theorem lookup_get {m : List (String × String)} {a t : String}
    (h : List.lookup a m = some t) :
    ∃ i, ∃ hi : i < m.length, m.get ⟨i, hi⟩ = (a, t) := by
  rw [List.lookup_eq_some_iff] at h
  obtain ⟨l₁, l₂, rfl, -⟩ := h
  refine ⟨l₁.length, by simp, ?_⟩
  rw [List.get_eq_getElem, List.getElem_append_right (Nat.le_refl _)]
  simp

theorem av_extends (v : String) (m : List (String × String)) (pfx : String) :
    ∃ tail, (anonymise_value v m pfx).2 = m ++ tail := by
  unfold anonymise_value
  cases List.lookup v m with
  | some t => exact ⟨[], by simp⟩
  | none => exact ⟨_, rfl⟩

theorem av_WF {pfx : String} {m : List (String × String)} (v : String)
    (h : WFmap pfx m) : WFmap pfx (anonymise_value v m pfx).2 := by
  unfold anonymise_value
  cases List.lookup v m with
  | some t => exact h
  | none =>
    intro i hi
    simp only [List.length_append, List.length_cons, List.length_nil] at hi
    rw [List.get_eq_getElem]
    by_cases him : i < m.length
    · rw [List.getElem_append_left him]
      have := h i him
      rw [List.get_eq_getElem] at this
      exact this
    · have hil : i = m.length := by omega
      rw [List.getElem_concat_length _ _ _ hil]
      simp [hil]

theorem av_self (v : String) (m : List (String × String)) (pfx : String) :
    ∃ i, ∃ hi : i < (anonymise_value v m pfx).2.length,
      (anonymise_value v m pfx).2.get ⟨i, hi⟩ = (v, (anonymise_value v m pfx).1) := by
  unfold anonymise_value
  cases h : List.lookup v m with
  | some t => exact lookup_get h
  | none =>
    refine ⟨m.length, by simp, ?_⟩
    rw [List.get_eq_getElem, List.getElem_concat_length _ _ _ rfl]

/-- `anonymise_value` never disturbs existing entries. -/
theorem av_preserve (b : String) (m : List (String × String)) (pfx : String)
    {i : Nat} (hi : i < m.length) :
    ∃ hi2 : i < (anonymise_value b m pfx).2.length,
      (anonymise_value b m pfx).2.get ⟨i, hi2⟩ = m.get ⟨i, hi⟩ := by
  unfold anonymise_value
  cases List.lookup b m with
  | some t => exact ⟨hi, rfl⟩
  | none =>
    refine ⟨by simp; omega, ?_⟩
    rw [List.get_eq_getElem, List.get_eq_getElem]
    exact List.getElem_append_left hi

/-- Successive calls on distinct keys of one category map yield distinct
tokens: the token records the key's (stable) position in the map. -/
theorem av_ne {a b pfx : String} {m : List (String × String)}
    (hWF : WFmap pfx m) (hne : a ≠ b) :
    (anonymise_value a m pfx).1 ≠
      (anonymise_value b (anonymise_value a m pfx).2 pfx).1 := by
  have hWF1 : WFmap pfx (anonymise_value a m pfx).2 := av_WF a hWF
  have hWF2 : WFmap pfx (anonymise_value b (anonymise_value a m pfx).2 pfx).2 :=
    av_WF b hWF1
  obtain ⟨ia, hia, hga⟩ := av_self a m pfx
  obtain ⟨ib, hib, hgb⟩ := av_self b (anonymise_value a m pfx).2 pfx
  obtain ⟨hia2, hpres⟩ := av_preserve b (anonymise_value a m pfx).2 pfx hia
  have hga2 : (anonymise_value b (anonymise_value a m pfx).2 pfx).2.get ⟨ia, hia2⟩ =
      (a, (anonymise_value a m pfx).1) := by rw [hpres, hga]
  have hta : (anonymise_value a m pfx).1 = pfx ++ Nat.repr (ia + 1) := by
    have := hWF2 ia hia2
    rw [hga2] at this
    exact this
  have htb : (anonymise_value b (anonymise_value a m pfx).2 pfx).1 =
      pfx ++ Nat.repr (ib + 1) := by
    have := hWF2 ib hib
    rw [hgb] at this
    exact this
  intro heq
  have hrepr : Nat.repr (ia + 1) = Nat.repr (ib + 1) :=
    string_append_left_cancel (by rw [← hta, ← htb, heq])
  have hii : ia = ib := by have := natRepr_inj hrepr; omega
  subst hii
  have : (a, (anonymise_value a m pfx).1) =
      (b, (anonymise_value b (anonymise_value a m pfx).2 pfx).1) := by
    rw [← hga2, ← hgb]
  exact hne (congrArg Prod.fst this)

/-! ### `anonymise_string` lemmas -/

theorem WF_iff (st : Registry) :
    WF st ↔ ∀ c, WFmap (catPfx c) (catMap c st) := by
  constructor
  · rintro ⟨h1, h2, h3, h4⟩ c
    cases c <;> assumption
  · intro h
    exact ⟨h .email, h .phone, h .url, h .text⟩

theorem setCatMap_setCatMap (c : Cat) (st : Registry)
    (m m' : List (String × String)) :
    setCatMap c (setCatMap c st m) m' = setCatMap c st m' := by
  cases c <;> rfl

theorem anonString_WF {st : Registry} (s : String) (h : WF st) :
    WF (anonymise_string s st).2 := by
  rw [anonymise_string_eq, WF_iff]
  intro c'
  by_cases hc : c' = classify s
  · subst hc
    rw [catMap_setCatMap_self]
    exact av_WF s ((WF_iff st).1 h (classify s))
  · rw [catMap_setCatMap_ne _ _ _ _ hc]
    exact (WF_iff st).1 h c'

/-- Every token issued under a well-formed registry is the category's
name followed by a positive decimal counter. -/
theorem anonString_token {st : Registry} (s : String) (h : WF st) :
    ∃ n, 1 ≤ n ∧ (anonymise_string s st).1 = catPfx (classify s) ++ Nat.repr n := by
  rw [anonymise_string_eq]
  have hWFm : WFmap (catPfx (classify s)) (catMap (classify s) st) :=
    (WF_iff st).1 h (classify s)
  obtain ⟨i, hi, hg⟩ := av_self s (catMap (classify s) st) (catPfx (classify s))
  have := av_WF s hWFm i hi
  rw [hg] at this
  exact ⟨i + 1, by omega, this⟩

theorem av_memo (v : String) (m : List (String × String)) (pfx : String) :
    anonymise_value v (anonymise_value v m pfx).2 pfx = anonymise_value v m pfx := by
  unfold anonymise_value
  cases h : List.lookup v m with
  | some t => simp [h]
  | none =>
    simp only [h]
    have : List.lookup v (m ++ [(v, pfx ++ Nat.repr (m.length + 1))]) =
        some (pfx ++ Nat.repr (m.length + 1)) := by
      rw [List.lookup_append, h]
      simp
    simp [this]

/-- Anonymising the same string twice returns the same token and leaves the
registry untouched the second time. -/
theorem anonString_memo (s : String) (st : Registry) :
    anonymise_string s (anonymise_string s st).2 = anonymise_string s st := by
  rw [anonymise_string_eq s st, anonymise_string_eq s
    (setCatMap (classify s) st
      (anonymise_value s (catMap (classify s) st) (catPfx (classify s))).2)]
  rw [catMap_setCatMap_self, av_memo, setCatMap_setCatMap]

/-- First character of each category's token prefix. -/
def catHead : Cat → Char
  | .email => 'e'
  | .phone => 'p'
  | .url => 'u'
  | .text => 't'

theorem token_head (c : Cat) (x : String) :
    (catPfx c ++ x).data.head? = some (catHead c) := by
  cases c <;> rfl

theorem catHead_ne {c c' : Cat} (h : c ≠ c') : catHead c ≠ catHead c' := by
  cases c <;> cases c' <;> first | exact absurd rfl h | decide

/-- Two successive `anonymise_string` calls on distinct strings, starting
from a well-formed registry, give distinct tokens — whatever the two
strings classify as. -/
theorem anonString_tokens_ne {a b : String} {st : Registry}
    (hWF : WF st) (hne : a ≠ b) :
    (anonymise_string a st).1 ≠ (anonymise_string b (anonymise_string a st).2).1 := by
  by_cases hc : classify a = classify b
  · -- same category: both calls act on the same map; use `av_ne`
    rw [anonymise_string_eq b (anonymise_string a st).2, anonymise_string_eq a st]
    dsimp only
    rw [← hc, catMap_setCatMap_self]
    exact av_ne ((WF_iff st).1 hWF (classify a)) hne
  · -- different categories: the tokens start with different characters
    obtain ⟨na, hna, hta⟩ := anonString_token a hWF
    obtain ⟨nb, hnb, htb⟩ := anonString_token b (anonString_WF a hWF)
    intro heq
    have hhead := congrArg (fun s => s.data.head?) heq
    rw [hta, htb] at hhead
    simp only [token_head] at hhead
    exact catHead_ne hc (Option.some.inj hhead)

/-! ### Unfolding lemmas for `anonymise` -/

theorem anonymise_obj (fields : List (String × Json)) (pk : Option String)
    (force : Bool) (st : Registry) :
    anonymise (.obj fields) pk force st =
      (Json.obj (anonymiseFields fields force st).1,
       (anonymiseFields fields force st).2) := by
  rw [anonymise]

theorem anonymise_arr (xs : List Json) (pk : Option String)
    (force : Bool) (st : Registry) :
    anonymise (.arr xs) pk force st =
      (Json.arr (anonymiseElems xs pk force st).1,
       (anonymiseElems xs pk force st).2) := by
  rw [anonymise]

theorem anonymise_str (s : String) (pk : Option String) (force : Bool)
    (st : Registry) :
    anonymise (.str s) pk force st =
      if force then
        (Json.str (anonymise_string s st).1, (anonymise_string s st).2)
      else (.str s, st) := by
  rw [anonymise]

theorem anonymise_num (n : Int) (pk : Option String) (force : Bool)
    (st : Registry) : anonymise (.num n) pk force st = (.num n, st) := by
  rw [anonymise] <;> simp

theorem anonymise_bool (b : Bool) (pk : Option String) (force : Bool)
    (st : Registry) : anonymise (.bool b) pk force st = (.bool b, st) := by
  rw [anonymise] <;> simp

theorem anonymise_null (pk : Option String) (force : Bool) (st : Registry) :
    anonymise .null pk force st = (.null, st) := by
  rw [anonymise] <;> simp

theorem anonymise_other (t : Nat) (pk : Option String) (force : Bool)
    (st : Registry) : anonymise (.other t) pk force st = (.other t, st) := by
  rw [anonymise] <;> simp

theorem anonymiseFields_nil (force : Bool) (st : Registry) :
    anonymiseFields [] force st = ([], st) := by
  rw [anonymiseFields]

theorem anonymiseFields_cons (k : String) (v : Json)
    (rest : List (String × Json)) (force : Bool) (st : Registry) :
    anonymiseFields ((k, v) :: rest) force st =
      ((k, (anonymiseEntry k (truncKey k v) force st).1) ::
         (anonymiseFields rest force (anonymiseEntry k (truncKey k v) force st).2).1,
       (anonymiseFields rest force (anonymiseEntry k (truncKey k v) force st).2).2) := by
  rw [anonymiseFields]

theorem anonymiseElems_nil (pk : Option String) (force : Bool) (st : Registry) :
    anonymiseElems [] pk force st = ([], st) := by
  rw [anonymiseElems]

theorem anonymiseElems_cons (x : Json) (rest : List Json) (pk : Option String)
    (force : Bool) (st : Registry) :
    anonymiseElems (x :: rest) pk force st =
      ((anonymise x pk force st).1 ::
         (anonymiseElems rest pk force (anonymise x pk force st).2).1,
       (anonymiseElems rest pk force (anonymise x pk force st).2).2) := by
  rw [anonymiseElems]

theorem anonymiseEntry_str_forced (k s : String) (st : Registry) :
    anonymiseEntry k (.str s) true st =
      (Json.str (anonymise_string s st).1, (anonymise_string s st).2) := by
  simp [anonymiseEntry]

theorem anonymiseEntry_forced_nonstr (k : String) (v2 : Json) (st : Registry)
    (hv : ∀ s, v2 ≠ .str s) :
    anonymiseEntry k v2 true st = anonymise v2 (some k) true st := by
  cases v2 <;> simp [anonymiseEntry]
  exact absurd rfl (hv _)

theorem anonymiseEntry_unforced (k : String) (v2 : Json) (st : Registry)
    (hpipe : PIPELINE_FIELDS.contains (strLower k) = false) :
    anonymiseEntry k v2 false st =
      if ANON_BLOCKS.contains (strLower k) then anonymise v2 (some k) true st
      else if SKIP_KEYS.contains (strLower k) then (v2, st)
      else anonymise v2 (some k) false st := by
  cases v2 <;> rw [anonymiseEntry] <;>
    first
      | (intro s hs; cases hs)
      | simp only [Bool.false_or, hpipe, Bool.false_eq_true, if_false]

/-! ### Shape preservation -/

theorem anonymiseFields_keys (fields : List (String × Json)) (force : Bool)
    (st : Registry) :
    ((anonymiseFields fields force st).1).map Prod.fst = fields.map Prod.fst := by
  induction fields generalizing st with
  | nil => rw [anonymiseFields_nil]
  | cons p rest ih =>
    obtain ⟨k, v⟩ := p
    rw [anonymiseFields_cons]
    simp [ih]

theorem anonymiseElems_length (xs : List Json) (pk : Option String)
    (force : Bool) (st : Registry) :
    ((anonymiseElems xs pk force st).1).length = xs.length := by
  induction xs generalizing st with
  | nil => rw [anonymiseElems_nil]
  | cons x rest ih =>
    rw [anonymiseElems_cons]
    simp [ih]

/-! ### Predicates over JSON trees -/

mutual

/-- `P` holds of every string leaf (keys are not string leaves). -/
def allStr (P : String → Prop) (j : Json) : Prop :=
  match j with
  | .obj fields => allStrFields P fields
  | .arr xs => allStrElems P xs
  | .str s => P s
  | _ => True
termination_by sizeOf j

def allStrFields (P : String → Prop) (fields : List (String × Json)) : Prop :=
  match fields with
  | [] => True
  | (_, v) :: rest => allStr P v ∧ allStrFields P rest
termination_by sizeOf fields

def allStrElems (P : String → Prop) (xs : List Json) : Prop :=
  match xs with
  | [] => True
  | x :: rest => allStr P x ∧ allStrElems P rest
termination_by sizeOf xs

end

/-- A pseudonym token: a category name followed by a positive counter. -/
def IsTok (s : String) : Prop :=
  ∃ c n, 1 ≤ n ∧ s = catPfx c ++ Nat.repr n

mutual

/-- No key anywhere in the tree belongs to `PIPELINE_FIELDS` or
`ANON_BLOCKS` (case-insensitively): nothing in the tree can switch
anonymisation on. -/
def noForceKey (j : Json) : Prop :=
  match j with
  | .obj fields => noForceFields fields
  | .arr xs => noForceElems xs
  | _ => True
termination_by sizeOf j

def noForceFields (fields : List (String × Json)) : Prop :=
  match fields with
  | [] => True
  | (k, v) :: rest =>
    PIPELINE_FIELDS.contains (strLower k) = false ∧
    ANON_BLOCKS.contains (strLower k) = false ∧
    noForceKey v ∧ noForceFields rest
termination_by sizeOf fields

def noForceElems (xs : List Json) : Prop :=
  match xs with
  | [] => True
  | x :: rest => noForceKey x ∧ noForceElems rest
termination_by sizeOf xs

end

/-! ### Facts about the key sets -/

theorem anon_not_pipeline {x : String} (h : ANON_BLOCKS.contains x = true) :
    PIPELINE_FIELDS.contains x = false := by
  have hmem : x ∈ ANON_BLOCKS := by simpa using h
  fin_cases hmem <;> decide

theorem truncKey_id_of_not_anon {k : String} (v : Json)
    (h : ANON_BLOCKS.contains (strLower k) = false) : truncKey k v = v := by
  have hdf : k ≠ "data_files" := by
    intro hk
    rw [hk] at h
    exact absurd h (by decide)
  have hdr : k ≠ "data_resources" := by
    intro hk
    rw [hk] at h
    exact absurd h (by decide)
  simp [truncKey, truncDF, truncDR, hdf, hdr]

/-! ### Forced subtrees: every string leaf becomes a token -/

mutual

theorem anonymise_forced_tok (j : Json) (pk : Option String) (st : Registry)
    (h : WF st) :
    allStr IsTok (anonymise j pk true st).1 ∧ WF (anonymise j pk true st).2 := by
  match j with
  | .obj fields =>
    rw [anonymise_obj]
    simp only [allStr]
    exact anonymiseFields_forced_tok fields st h
  | .arr xs =>
    rw [anonymise_arr]
    simp only [allStr]
    exact anonymiseElems_forced_tok xs pk st h
  | .str s =>
    rw [anonymise_str]
    simp only [if_true]
    simp only [allStr]
    obtain ⟨n, hn, ht⟩ := anonString_token s h
    exact ⟨⟨classify s, n, hn, ht⟩, anonString_WF s h⟩
  | .num n => rw [anonymise_num]; simp only [allStr]; exact ⟨trivial, h⟩
  | .bool b => rw [anonymise_bool]; simp only [allStr]; exact ⟨trivial, h⟩
  | .null => rw [anonymise_null]; simp only [allStr]; exact ⟨trivial, h⟩
  | .other t => rw [anonymise_other]; simp only [allStr]; exact ⟨trivial, h⟩
termination_by sizeOf j

theorem anonymiseEntry_forced_tok (k : String) (v2 : Json) (st : Registry)
    (h : WF st) :
    allStr IsTok (anonymiseEntry k v2 true st).1 ∧
      WF (anonymiseEntry k v2 true st).2 := by
  match v2 with
  | .str s =>
    rw [anonymiseEntry_str_forced]
    simp only [allStr]
    obtain ⟨n, hn, ht⟩ := anonString_token s h
    exact ⟨⟨classify s, n, hn, ht⟩, anonString_WF s h⟩
  | .obj fields =>
    rw [anonymiseEntry_forced_nonstr k _ st (by intro s hs; cases hs)]
    exact anonymise_forced_tok (.obj fields) (some k) st h
  | .arr xs =>
    rw [anonymiseEntry_forced_nonstr k _ st (by intro s hs; cases hs)]
    exact anonymise_forced_tok (.arr xs) (some k) st h
  | .num n =>
    rw [anonymiseEntry_forced_nonstr k _ st (by intro s hs; cases hs)]
    exact anonymise_forced_tok (.num n) (some k) st h
  | .bool b =>
    rw [anonymiseEntry_forced_nonstr k _ st (by intro s hs; cases hs)]
    exact anonymise_forced_tok (.bool b) (some k) st h
  | .null =>
    rw [anonymiseEntry_forced_nonstr k _ st (by intro s hs; cases hs)]
    exact anonymise_forced_tok .null (some k) st h
  | .other t =>
    rw [anonymiseEntry_forced_nonstr k _ st (by intro s hs; cases hs)]
    exact anonymise_forced_tok (.other t) (some k) st h
termination_by sizeOf v2 + 1

theorem anonymiseFields_forced_tok (fields : List (String × Json))
    (st : Registry) (h : WF st) :
    allStrFields IsTok (anonymiseFields fields true st).1 ∧
      WF (anonymiseFields fields true st).2 := by
  match fields with
  | [] =>
    rw [anonymiseFields_nil]
    simp only [allStrFields]
    exact ⟨trivial, h⟩
  | (k, v) :: rest =>
    rw [anonymiseFields_cons]
    simp only [allStrFields]
    obtain ⟨h1, hst1⟩ := anonymiseEntry_forced_tok k (truncKey k v) st h
    obtain ⟨h2, hst2⟩ := anonymiseFields_forced_tok rest _ hst1
    exact ⟨⟨h1, h2⟩, hst2⟩
termination_by sizeOf fields
decreasing_by
  all_goals simp_wf
  all_goals have h1 := sizeOf_truncKey_le k v
  all_goals simp_arith
  all_goals omega

theorem anonymiseElems_forced_tok (xs : List Json) (pk : Option String)
    (st : Registry) (h : WF st) :
    allStrElems IsTok (anonymiseElems xs pk true st).1 ∧
      WF (anonymiseElems xs pk true st).2 := by
  match xs with
  | [] =>
    rw [anonymiseElems_nil]
    simp only [allStrElems]
    exact ⟨trivial, h⟩
  | x :: rest =>
    rw [anonymiseElems_cons]
    simp only [allStrElems]
    obtain ⟨h1, hst1⟩ := anonymise_forced_tok x pk st h
    obtain ⟨h2, hst2⟩ := anonymiseElems_forced_tok rest pk _ hst1
    exact ⟨⟨h1, h2⟩, hst2⟩
termination_by sizeOf xs

end

/-! ### Unforced subtrees with no forcing keys pass through unchanged -/

mutual

theorem anonymise_noforce (j : Json) (pk : Option String) (st : Registry)
    (h : noForceKey j) : anonymise j pk false st = (j, st) := by
  match j with
  | .obj fields =>
    rw [anonymise_obj]
    rw [noForceKey] at h
    rw [anonymiseFields_noforce fields st h]
  | .arr xs =>
    rw [anonymise_arr]
    rw [noForceKey] at h
    rw [anonymiseElems_noforce xs pk st h]
  | .str s => rw [anonymise_str]; simp
  | .num n => exact anonymise_num n pk false st
  | .bool b => exact anonymise_bool b pk false st
  | .null => exact anonymise_null pk false st
  | .other t => exact anonymise_other t pk false st
termination_by sizeOf j

theorem anonymiseFields_noforce (fields : List (String × Json))
    (st : Registry) (h : noForceFields fields) :
    anonymiseFields fields false st = (fields, st) := by
  match fields with
  | [] => exact anonymiseFields_nil false st
  | (k, v) :: rest =>
    rw [noForceFields] at h
    obtain ⟨hpipe, hanon, hv, hrest⟩ := h
    have htr : truncKey k v = v := truncKey_id_of_not_anon v hanon
    have hentry : anonymiseEntry k (truncKey k v) false st = (v, st) := by
      rw [htr, anonymiseEntry_unforced k v st hpipe]
      simp only [hanon, Bool.false_eq_true, if_false]
      by_cases hskip : SKIP_KEYS.contains (strLower k) = true
      · simp only [hskip, if_true]
      · simp only [Bool.not_eq_true] at hskip
        simp only [hskip, Bool.false_eq_true, if_false]
        exact anonymise_noforce v (some k) st hv
    rw [anonymiseFields_cons, hentry]
    simp only
    rw [anonymiseFields_noforce rest st hrest]
termination_by sizeOf fields
decreasing_by
  all_goals simp_wf
  all_goals simp_arith

theorem anonymiseElems_noforce (xs : List Json) (pk : Option String)
    (st : Registry) (h : noForceElems xs) :
    anonymiseElems xs pk false st = (xs, st) := by
  match xs with
  | [] => exact anonymiseElems_nil pk false st
  | x :: rest =>
    rw [noForceElems] at h
    obtain ⟨hx, hrest⟩ := h
    rw [anonymiseElems_cons, anonymise_noforce x pk st hx]
    rw [anonymiseElems_noforce rest pk st hrest]
termination_by sizeOf xs

end

/-! ### Helpers for the truncation-policy fields -/

theorem truncKey_trunc_field {k : String}
    (hk : k = "data_files" ∨ k = "data_resources") (xs : List Json) :
    truncKey k (Json.arr xs) = Json.arr (xs.take 1) := by
  rcases hk with rfl | rfl <;>
    simp +decide [truncKey, truncDF, truncDR, truncIfList]

theorem anonymiseEntry_trunc_field {k : String}
    (hk : k = "data_files" ∨ k = "data_resources") (v2 : Json) (force : Bool)
    (st : Registry) :
    anonymiseEntry k v2 force st = anonymise v2 (some k) true st := by
  have hpipe : PIPELINE_FIELDS.contains (strLower k) = false := by
    rcases hk with rfl | rfl <;> decide
  have hanon : ANON_BLOCKS.contains (strLower k) = true := by
    rcases hk with rfl | rfl <;> decide
  cases force with
  | false => rw [anonymiseEntry_unforced k v2 st hpipe, if_pos hanon]
  | true =>
    match v2 with
    | .str s =>
      rw [anonymiseEntry_str_forced, anonymise_str, if_pos rfl]
    | .obj fields => rw [anonymiseEntry_forced_nonstr k _ st (by intro s hs; cases hs)]
    | .arr xs => rw [anonymiseEntry_forced_nonstr k _ st (by intro s hs; cases hs)]
    | .num n => rw [anonymiseEntry_forced_nonstr k _ st (by intro s hs; cases hs)]
    | .bool b => rw [anonymiseEntry_forced_nonstr k _ st (by intro s hs; cases hs)]
    | .null => rw [anonymiseEntry_forced_nonstr k _ st (by intro s hs; cases hs)]
    | .other t => rw [anonymiseEntry_forced_nonstr k _ st (by intro s hs; cases hs)]

/-- Under an `ANON_BLOCKS` key the entry value is fully tokenised,
whatever the incoming `force` flag. -/
theorem anonymiseEntry_anonkey_tok (k : String) (v2 : Json) (force : Bool)
    (st : Registry) (h : WF st)
    (hk : ANON_BLOCKS.contains (strLower k) = true) :
    allStr IsTok (anonymiseEntry k v2 force st).1 := by
  cases force with
  | false =>
    rw [anonymiseEntry_unforced k v2 st (anon_not_pipeline hk), if_pos hk]
    exact (anonymise_forced_tok v2 (some k) st h).1
  | true => exact (anonymiseEntry_forced_tok k v2 st h).1

/-! ### Paths into a JSON tree -/

/-- One navigation step: into a mapping by key, or into a sequence by
index. -/
inductive Step where
  | key (k : String)
  | idx (i : Nat)

/-- Follow a path of steps down a JSON tree. -/
def getPath (j : Json) : List Step → Option Json
  | [] => some j
  | .key k :: p =>
    match j with
    | .obj fields =>
      match List.lookup k fields with
      | some v => getPath v p
      | none => none
    | _ => none
  | .idx i :: p =>
    match j with
    | .arr xs =>
      match xs.get? i with
      | some x => getPath x p
      | none => none
    | _ => none

/-- A key switches anonymisation on when (case-insensitively) it is a
pipeline field or an anonymisation block. -/
def forcingKeyB (k : String) : Bool :=
  PIPELINE_FIELDS.contains (strLower k) || ANON_BLOCKS.contains (strLower k)

/-- No key step of the path is a forcing key. -/
def cleanPath : List Step → Prop
  | [] => True
  | .key k :: p => forcingKeyB k = false ∧ cleanPath p
  | .idx _ :: p => cleanPath p

theorem anonymiseElems_get? (xs : List Json) (pk : Option String)
    (force : Bool) (i : Nat) (x : Json) (hx : xs.get? i = some x) :
    ∀ st : Registry, ∃ st2,
      ((anonymiseElems xs pk force st).1).get? i =
        some ((anonymise x pk force st2).1) := by
  induction xs generalizing i with
  | nil => simp at hx
  | cons y rest ih =>
    intro st
    rw [anonymiseElems_cons]
    cases i with
    | zero =>
      simp only [List.get?] at hx
      cases hx
      exact ⟨st, by simp⟩
    | succ n =>
      simp only [List.get?] at hx ⊢
      exact ih n hx ((anonymise y pk force st).2)

theorem anonymiseFields_lookup_clean (k : String) (v : Json)
    (fields : List (String × Json))
    (hanon : ANON_BLOCKS.contains (strLower k) = false)
    (hv : List.lookup k fields = some v) :
    ∀ st : Registry, ∃ st3,
      List.lookup k ((anonymiseFields fields false st).1) =
        some ((anonymiseEntry k v false st3).1) := by
  induction fields with
  | nil => simp at hv
  | cons q rest ih =>
    intro st
    obtain ⟨k2, v2⟩ := q
    rw [anonymiseFields_cons]
    by_cases hk : k = k2
    · subst hk
      rw [List.lookup_cons_self] at hv
      cases hv
      refine ⟨st, ?_⟩
      rw [truncKey_id_of_not_anon v hanon, List.lookup_cons_self]
    · have hbeq : (k == k2) = false := beq_eq_false_iff_ne.2 hk
      rw [List.lookup_cons, hbeq] at hv
      have := ih hv ((anonymiseEntry k2 (truncKey k2 v2) false st).2)
      rw [List.lookup_cons, hbeq]
      exact this

/-- A string leaf whose path avoids every forcing key is untouched by an
unforced pass, whatever the rest of the document contains. -/
theorem getPath_unchanged (p : List Step) :
    ∀ (doc : Json) (s : String) (pk : Option String) (st : Registry),
      cleanPath p → getPath doc p = some (.str s) →
      getPath (anonymise doc pk false st).1 p = some (.str s) := by
  induction p with
  | nil =>
    intro doc s pk st _ hg
    simp only [getPath, Option.some.injEq] at hg
    subst hg
    rw [anonymise_str]
    simp [getPath]
  | cons step p ih =>
    intro doc s pk st hc hg
    cases step with
    | key k =>
      obtain ⟨hfk, hcp⟩ := hc
      rw [forcingKeyB, Bool.or_eq_false_iff] at hfk
      have hpipe : PIPELINE_FIELDS.contains (strLower k) = false := hfk.1
      have hanon : ANON_BLOCKS.contains (strLower k) = false := hfk.2
      match doc with
      | .obj fields =>
        simp only [getPath] at hg
        cases hlook : List.lookup k fields with
        | none => rw [hlook] at hg; cases hg
        | some v =>
          rw [hlook] at hg
          rw [anonymise_obj]
          obtain ⟨st3, hl2⟩ := anonymiseFields_lookup_clean k v fields hanon hlook st
          simp only [getPath, hl2]
          by_cases hskip : SKIP_KEYS.contains (strLower k) = true
          · rw [anonymiseEntry_unforced k v st3 hpipe]
            simp only [hanon, Bool.false_eq_true, if_false, hskip, if_true]
            exact hg
          · simp only [Bool.not_eq_true] at hskip
            rw [anonymiseEntry_unforced k v st3 hpipe]
            simp only [hanon, Bool.false_eq_true, if_false, hskip, if_false]
            exact ih v s (some k) st3 hcp hg
      | .arr xs => simp [getPath] at hg
      | .str s2 => simp [getPath] at hg
      | .num n => simp [getPath] at hg
      | .bool b => simp [getPath] at hg
      | .null => simp [getPath] at hg
      | .other t => simp [getPath] at hg
    | idx i =>
      match doc with
      | .arr xs =>
        simp only [getPath] at hg
        cases hget : xs.get? i with
        | none => rw [hget] at hg; cases hg
        | some x =>
          rw [hget] at hg
          rw [anonymise_arr]
          obtain ⟨st2, hg2⟩ := anonymiseElems_get? xs pk false i x hget st
          simp only [getPath, hg2]
          exact ih x s pk st2 hc hg
      | .obj fields => simp [getPath] at hg
      | .str s2 => simp [getPath] at hg
      | .num n => simp [getPath] at hg
      | .bool b => simp [getPath] at hg
      | .null => simp [getPath] at hg
      | .other t => simp [getPath] at hg

/-! ## The claims -/

/-- C1 (code bug): the spec says a skip-named key's value is returned
unchanged even inside a forced block, but the code tests `force` before
`SKIP_KEYS`, so under `"contacts"` (a force block) the skip key `"id"`
has its string value `"Alice"` replaced by the pseudonym `"text1"`. -/
theorem skip_keys_overridden_by_force :
    (anonymise (Json.obj [("contacts", Json.obj [("id", Json.str "Alice")])])
        none false Registry.empty).1
      = Json.obj [("contacts", Json.obj [("id", Json.str "text1")])] ∧
    Json.str "text1" ≠ Json.str "Alice" := by
  constructor
  · simp +decide [anonymise_obj, anonymiseFields_cons, anonymiseFields_nil,
      anonymiseEntry, anonymise_str, anonymise_string, anonymise_value,
      truncKey, truncDF, truncDR, truncIfList]
  · simp +decide

/-- C2 (counterexample): truncation matches the key case-sensitively, so
`"Data_Files"` (which the claim says is truncated case-insensitively)
keeps both of its list elements. -/
theorem truncation_case_sensitive_cex :
    (anonymise (Json.obj [("Data_Files", Json.arr [Json.num 1, Json.num 2])])
        none false Registry.empty).1
      = Json.obj [("Data_Files", Json.arr [Json.num 1, Json.num 2])] ∧
    Json.obj [("Data_Files", Json.arr [Json.num 1, Json.num 2])] ≠
      Json.obj [("Data_Files", Json.arr [Json.num 1])] := by
  constructor
  · simp +decide [anonymise_obj, anonymise_arr, anonymiseElems_cons,
      anonymiseElems_nil, anonymise_num, anonymiseFields_cons,
      anonymiseFields_nil, anonymiseEntry, truncKey, truncDF, truncDR,
      truncIfList]
  · simp

/-- C2 (amended): for a key exactly equal to `"data_files"` or
`"data_resources"` (case-sensitive) holding a list, the output under that
key is the (forced) anonymisation of the list truncated to its first
element; in particular its length is `min 1` the input length, regardless
of the incoming `force` flag. -/
theorem truncation_policy_amended (k : String) (v : List Json)
    (rest : List (String × Json)) (force : Bool) (st : Registry)
    (hk : k = "data_files" ∨ k = "data_resources") :
    ∃ ys fs2 st2,
      anonymiseFields ((k, Json.arr v) :: rest) force st =
        ((k, Json.arr ys) :: fs2, st2) ∧
      Json.arr ys = (anonymise (Json.arr (v.take 1)) (some k) true st).1 ∧
      ys.length = min 1 v.length := by
  rw [anonymiseFields_cons, truncKey_trunc_field hk, anonymiseEntry_trunc_field hk]
  rw [anonymise_arr]
  refine ⟨_, _, _, rfl, rfl, ?_⟩
  rw [anonymiseElems_length, List.length_take]

theorem truncation_policy_amended_witness :
    ("data_files" = "data_files" ∨ "data_files" = "data_resources") ∧
    ∃ ys fs2 st2,
      anonymiseFields [("data_files", Json.arr [Json.num 1, Json.num 2])]
          false Registry.empty =
        (("data_files", Json.arr ys) :: fs2, st2) ∧
      Json.arr ys =
        (anonymise (Json.arr ([Json.num 1, Json.num 2].take 1))
            (some "data_files") true Registry.empty).1 ∧
      ys.length = min 1 [Json.num 1, Json.num 2].length :=
  ⟨Or.inl rfl,
   truncation_policy_amended "data_files" [Json.num 1, Json.num 2] []
     false Registry.empty (Or.inl rfl)⟩

/-- C3: (i) the value under any `ANON_BLOCKS` key has every string leaf
replaced by a pseudonym token, however deep, and whatever the incoming
`force` flag; (ii) with `force = false` at the root, a string leaf whose
path crosses no forcing key is reachable unchanged at the same path of the
output, whatever else (including forced blocks) the document contains. -/
theorem force_propagation :
    (∀ (k : String) (v : Json) (rest : List (String × Json)) (force : Bool)
        (st : Registry), WF st → ANON_BLOCKS.contains (strLower k) = true →
        ∃ w fs2 st2,
          anonymiseFields ((k, v) :: rest) force st = ((k, w) :: fs2, st2) ∧
          allStr IsTok w) ∧
    (∀ (doc : Json) (p : List Step) (s : String) (pk : Option String)
        (st : Registry), cleanPath p → getPath doc p = some (.str s) →
        getPath (anonymise doc pk false st).1 p = some (.str s)) := by
  constructor
  · intro k v rest force st hWF hk
    rw [anonymiseFields_cons]
    exact ⟨_, _, _, rfl, anonymiseEntry_anonkey_tok k (truncKey k v) force st hWF hk⟩
  · intro doc p s pk st hc hg
    exact getPath_unchanged p doc s pk st hc hg

theorem force_propagation_witness :
    (WF Registry.empty ∧
      ANON_BLOCKS.contains (strLower "contacts") = true ∧
      ∃ w fs2 st2,
        anonymiseFields [("contacts", Json.str "Alice")] false Registry.empty =
          (("contacts", w) :: fs2, st2) ∧ allStr IsTok w) ∧
    (cleanPath [Step.key "note"] ∧
      getPath (Json.obj [("contacts", Json.str "secret"),
          ("note", Json.str "hello")]) [Step.key "note"] =
        some (.str "hello") ∧
      getPath (anonymise (Json.obj [("contacts", Json.str "secret"),
            ("note", Json.str "hello")]) none false Registry.empty).1
          [Step.key "note"] =
        some (.str "hello")) := by
  refine ⟨⟨WF_empty, by decide, ?_⟩, ⟨⟨by decide, trivial⟩, rfl, ?_⟩⟩
  · exact force_propagation.1 "contacts" (Json.str "Alice") [] false
      Registry.empty WF_empty (by decide)
  · exact force_propagation.2
      (Json.obj [("contacts", Json.str "secret"), ("note", Json.str "hello")])
      [Step.key "note"] "hello" none Registry.empty ⟨by decide, trivial⟩ rfl

/-- C4: the output keeps the mapping keys in order; a sequence keeps its
length and its element order — the i-th output element is the
anonymisation of the i-th input element (truncation replaces the value
*before* `anonymise` recurses into it, matching the claim's exception);
numbers, booleans and null pass through unchanged. -/
theorem shape_preservation :
    (∀ (fields : List (String × Json)) (pk : Option String) (force : Bool)
        (st : Registry),
        ∃ fields2 st2, anonymise (.obj fields) pk force st = (.obj fields2, st2) ∧
          fields2.map Prod.fst = fields.map Prod.fst) ∧
    (∀ (xs : List Json) (pk : Option String) (force : Bool) (st : Registry),
        ∃ ys st2, anonymise (.arr xs) pk force st = (.arr ys, st2) ∧
          ys.length = xs.length ∧
          ∀ (i : Nat) (x : Json), xs.get? i = some x →
            ∃ st3, ys.get? i = some ((anonymise x pk force st3).1)) ∧
    (∀ (n : Int) (pk : Option String) (force : Bool) (st : Registry),
        anonymise (.num n) pk force st = (.num n, st)) ∧
    (∀ (b : Bool) (pk : Option String) (force : Bool) (st : Registry),
        anonymise (.bool b) pk force st = (.bool b, st)) ∧
    (∀ (pk : Option String) (force : Bool) (st : Registry),
        anonymise .null pk force st = (.null, st)) := by
  refine ⟨?_, ?_, anonymise_num, anonymise_bool, anonymise_null⟩
  · intro fields pk force st
    rw [anonymise_obj]
    exact ⟨_, _, rfl, anonymiseFields_keys fields force st⟩
  · intro xs pk force st
    rw [anonymise_arr]
    refine ⟨_, _, rfl, anonymiseElems_length xs pk force st, ?_⟩
    intro i x hx
    exact anonymiseElems_get? xs pk force i x hx st

theorem shape_preservation_witness :
    [Json.str "a", Json.num 7].get? 1 = some (Json.num 7) ∧
    ∃ ys st2,
      anonymise (Json.arr [Json.str "a", Json.num 7]) none true Registry.empty =
        (Json.arr ys, st2) ∧
      ys.length = [Json.str "a", Json.num 7].length ∧
      ∃ st3, ys.get? 1 = some ((anonymise (Json.num 7) none true st3).1) := by
  obtain ⟨ys, st2, heq, hlen, hcorr⟩ :=
    shape_preservation.2.1 [Json.str "a", Json.num 7] none true Registry.empty
  exact ⟨rfl, ys, st2, heq, hlen, hcorr 1 (Json.num 7) rfl⟩

/-- C5: classification tests email, phone, url, text in that order and the
first match wins; `"12345678901"` classifies as phone (not text); every
issued token is the category's name followed by a 1-based counter. -/
theorem classification_priority (s : String) (st : Registry) (hWF : WF st) :
    (emailMatch s = true → classify s = Cat.email) ∧
    (emailMatch s = false → phoneMatch s = true → classify s = Cat.phone) ∧
    (emailMatch s = false → phoneMatch s = false → startsWithHttp s = true →
      classify s = Cat.url) ∧
    (emailMatch s = false → phoneMatch s = false → startsWithHttp s = false →
      classify s = Cat.text) ∧
    (∃ n, 1 ≤ n ∧ (anonymise_string s st).1 = catPfx (classify s) ++ Nat.repr n) ∧
    (emailMatch "12345678901" = false ∧ phoneMatch "12345678901" = true ∧
      classify "12345678901" = Cat.phone ∧
      (anonymise_string "12345678901" Registry.empty).1 = "phone1") := by
  refine ⟨?_, ?_, ?_, ?_, anonString_token s hWF, by decide, by decide, by decide, ?_⟩
  · intro h1; simp [classify, h1]
  · intro h1 h2; simp [classify, h1, h2]
  · intro h1 h2 h3; simp [classify, h1, h2, h3]
  · intro h1 h2 h3; simp [classify, h1, h2, h3]
  · decide

theorem classification_priority_witness :
    WF Registry.empty ∧
    ((emailMatch "12345678901" = true → classify "12345678901" = Cat.email) ∧
     (emailMatch "12345678901" = false → phoneMatch "12345678901" = true →
       classify "12345678901" = Cat.phone) ∧
     (emailMatch "12345678901" = false → phoneMatch "12345678901" = false →
       startsWithHttp "12345678901" = true → classify "12345678901" = Cat.url) ∧
     (emailMatch "12345678901" = false → phoneMatch "12345678901" = false →
       startsWithHttp "12345678901" = false → classify "12345678901" = Cat.text) ∧
     (∃ n, 1 ≤ n ∧ (anonymise_string "12345678901" Registry.empty).1 =
        catPfx (classify "12345678901") ++ Nat.repr n) ∧
     (emailMatch "12345678901" = false ∧ phoneMatch "12345678901" = true ∧
       classify "12345678901" = Cat.phone ∧
       (anonymise_string "12345678901" Registry.empty).1 = "phone1")) :=
  ⟨WF_empty, classification_priority "12345678901" Registry.empty WF_empty⟩

/-- C6: within one run the pseudonym lookup is memoised — anonymising the
same string a second time returns the identical token and the identical
registry. -/
theorem anonymise_string_memoized (s : String) (st : Registry) :
    anonymise_string s (anonymise_string s st).2 = anonymise_string s st := by
  rw [anonymise_string_eq s st, anonymise_string_eq s
    (setCatMap (classify s) st
      (anonymise_value s (catMap (classify s) st) (catPfx (classify s))).2)]
  rw [catMap_setCatMap_self, av_memo, setCatMap_setCatMap]

/-- C7: distinct strings of the same classification category receive
distinct tokens (counters only grow, so the per-category map is
injective). -/
theorem same_category_tokens_distinct (a b : String) (st : Registry)
    (hWF : WF st) (hne : a ≠ b) (_hcat : classify a = classify b) :
    (anonymise_string a st).1 ≠
      (anonymise_string b (anonymise_string a st).2).1 :=
  anonString_tokens_ne hWF hne

theorem same_category_tokens_distinct_witness :
    WF Registry.empty ∧ "alpha" ≠ "beta" ∧ classify "alpha" = classify "beta" ∧
    (anonymise_string "alpha" Registry.empty).1 ≠
      (anonymise_string "beta" (anonymise_string "alpha" Registry.empty).2).1 :=
  ⟨WF_empty, by decide, by decide,
   same_category_tokens_distinct "alpha" "beta" Registry.empty WF_empty
     (by decide) (by decide)⟩

/-- C8: the transform is total — it is a function defined on every
JSON-like value — and every non-mapping, non-sequence, non-string leaf
(numbers, booleans, null, opaque scalars) passes through unchanged. -/
theorem anonymise_total :
    (∀ (j : Json) (pk : Option String) (force : Bool) (st : Registry),
        ∃ out st2, anonymise j pk force st = (out, st2)) ∧
    (∀ (t : Nat) (pk : Option String) (force : Bool) (st : Registry),
        anonymise (.other t) pk force st = (.other t, st)) ∧
    (∀ (n : Int) (pk : Option String) (force : Bool) (st : Registry),
        anonymise (.num n) pk force st = (.num n, st)) ∧
    (∀ (b : Bool) (pk : Option String) (force : Bool) (st : Registry),
        anonymise (.bool b) pk force st = (.bool b, st)) ∧
    (∀ (pk : Option String) (force : Bool) (st : Registry),
        anonymise .null pk force st = (.null, st)) :=
  ⟨fun j pk force st => ⟨(anonymise j pk force st).1, (anonymise j pk force st).2, rfl⟩,
   anonymise_other, anonymise_num, anonymise_bool, anonymise_null⟩

/-- C9: a run is a pure function of the processed document — two runs from
a fresh registry over the same document give identical output values and
identical final registry contents. -/
theorem run_deterministic (d1 d2 : Json) (h : d1 = d2) :
    (runAnonymise d1).1 = (runAnonymise d2).1 ∧
    (runAnonymise d1).2 = (runAnonymise d2).2 := by
  subst h
  exact ⟨rfl, rfl⟩

theorem run_deterministic_witness :
    Json.null = Json.null ∧
    (runAnonymise Json.null).1 = (runAnonymise Json.null).1 ∧
    (runAnonymise Json.null).2 = (runAnonymise Json.null).2 :=
  ⟨rfl, run_deterministic Json.null Json.null rfl⟩

/-- C10: the four category prefixes are pairwise distinct (distinct first
characters), so tokens never collide across categories; combined with
per-category injectivity, any two distinct strings anonymised in one run
receive distinct tokens. -/
theorem tokens_globally_unique (a b : String) (st : Registry)
    (hWF : WF st) (hne : a ≠ b) :
    (∀ c c2 : Cat, c ≠ c2 → catPfx c ≠ catPfx c2) ∧
    (anonymise_string a st).1 ≠
      (anonymise_string b (anonymise_string a st).2).1 := by
  refine ⟨?_, anonString_tokens_ne hWF hne⟩
  intro c c2 hcc
  cases c <;> cases c2 <;> first | exact absurd rfl hcc | decide

theorem tokens_globally_unique_witness :
    WF Registry.empty ∧ "a@b.c" ≠ "12345678901" ∧
    ((∀ c c2 : Cat, c ≠ c2 → catPfx c ≠ catPfx c2) ∧
     (anonymise_string "a@b.c" Registry.empty).1 ≠
       (anonymise_string "12345678901"
           (anonymise_string "a@b.c" Registry.empty).2).1) :=
  ⟨WF_empty, by decide,
   tokens_globally_unique "a@b.c" "12345678901" Registry.empty WF_empty
     (by decide)⟩

end DataAnonymiser
